import Mathlib

/-!
Verification of the criteria query engine of the `slims_` module
(`src/modules/slims_/src/util.py`, `src/modules/slims_/src/connection.py`,
and the legacy variants in `src/modules/slims_/__init__.py`).

The embedding models the `slims.criteria` data types (`Criterion`,
`Junction`, expression constructors such as `equals` / `is_one_of` /
`is_not`, and the attrs classes `HasParent` / `HasDerived`) as one closed
inductive type `Criterion`, exactly as the module uses them: a `Junction`
is an operator (`AND` / `OR` / `NOT`) plus an ordered member list to which
`add` appends, and every leaf expression carries its operator tag, field
name and value list.  The remote SLIMS store is passed around as a
function `conn : String → Criterion → List Record` ("table", criterion),
mirroring how the Python code threads the `connection` object whose only
operation used here is `fetch`.  Records expose the two attributes the
module reads: `pk()` and `cntn_fk_originalContent.value`, both modelled as
naturals.

Python exceptions become `Except` values: `ValueError` during
tokenizing/parsing, the `NoMatch` / `NoOp` control signals of the
resolver, and the `UnboundLocalError` that CPython raises when a local
variable is read before assignment (the `HasDerived` register reads
`derived` without assigning it when no base criterion is supplied).
Unbounded recursion in `parse_criteria` (a single token that re-splits to
itself) is modelled with a fuel parameter standing for CPython's recursion
limit.  In-place mutation of member lists (`Junction.add`) is modelled by
returning the extended junction.
-/

inductive JuncOp where
  | and_
  | or_
  | not_
  deriving DecidableEq, Repr

/-- A SLIMS criterion value: the module puts both query-string tokens and
primary keys fetched from the store into criteria. -/
inductive SlimsValue where
  | str (s : String)
  | num (n : Nat)
  deriving DecidableEq, Repr

/-- The criterion AST: leaf expressions, junctions (`conjunction` /
`disjunction` / `is_not`), and the module's own `HasParent` / `HasDerived`
relationship nodes (attrs classes in `util.py`). -/
inductive Criterion where
  | leaf (operator : String) (fieldName : String) (values : List SlimsValue)
  | junction (operator : JuncOp) (members : List Criterion)
  | hasParent (value : Criterion) (negate : Bool)
  | hasDerived (value : Criterion) (negate : Bool)
  deriving Repr

mutual

def critDecEq : (a b : Criterion) → Decidable (a = b)
  | .leaf o1 f1 v1, .leaf o2 f2 v2 =>
    decidable_of_iff (o1 = o2 ∧ f1 = f2 ∧ v1 = v2) (by
      rw [Criterion.leaf.injEq])
  | .junction o1 m1, .junction o2 m2 =>
    match critDecEqList m1 m2 with
    | isTrue hm =>
      decidable_of_iff (o1 = o2) (by
        rw [Criterion.junction.injEq]
        simp [hm])
    | isFalse hm => isFalse (by
        rw [Criterion.junction.injEq]
        intro hc
        exact hm hc.2)
  | .hasParent v1 n1, .hasParent v2 n2 =>
    match critDecEq v1 v2 with
    | isTrue hv =>
      decidable_of_iff (n1 = n2) (by
        rw [Criterion.hasParent.injEq]
        simp [hv])
    | isFalse hv => isFalse (by
        rw [Criterion.hasParent.injEq]
        intro hc
        exact hv hc.1)
  | .hasDerived v1 n1, .hasDerived v2 n2 =>
    match critDecEq v1 v2 with
    | isTrue hv =>
      decidable_of_iff (n1 = n2) (by
        rw [Criterion.hasDerived.injEq]
        simp [hv])
    | isFalse hv => isFalse (by
        rw [Criterion.hasDerived.injEq]
        intro hc
        exact hv hc.1)
  | .leaf _ _ _, .junction _ _ => isFalse nofun
  | .leaf _ _ _, .hasParent _ _ => isFalse nofun
  | .leaf _ _ _, .hasDerived _ _ => isFalse nofun
  | .junction _ _, .leaf _ _ _ => isFalse nofun
  | .junction _ _, .hasParent _ _ => isFalse nofun
  | .junction _ _, .hasDerived _ _ => isFalse nofun
  | .hasParent _ _, .leaf _ _ _ => isFalse nofun
  | .hasParent _ _, .junction _ _ => isFalse nofun
  | .hasParent _ _, .hasDerived _ _ => isFalse nofun
  | .hasDerived _ _, .leaf _ _ _ => isFalse nofun
  | .hasDerived _ _, .junction _ _ => isFalse nofun
  | .hasDerived _ _, .hasParent _ _ => isFalse nofun

def critDecEqList : (a b : List Criterion) → Decidable (a = b)
  | [], [] => isTrue rfl
  | [], _ :: _ => isFalse nofun
  | _ :: _, [] => isFalse nofun
  | a :: as, b :: bs =>
    match critDecEq a b, critDecEqList as bs with
    | isTrue h1, isTrue h2 => isTrue (by rw [h1, h2])
    | isFalse h1, _ => isFalse (by
        intro h
        injection h with x _
        exact h1 x)
    | isTrue _, isFalse h2 => isFalse (by
        intro h
        injection h with _ y
        exact h2 y)

end

instance : DecidableEq Criterion := critDecEq

/-- `Junction.add` appends a member and returns the junction; it exists
only on junctions. -/
def Criterion.add : Criterion → Criterion → Criterion
  | .junction op ms, m => .junction op (ms ++ [m])
  | c, _ => c

/-- `slims.criteria.conjunction()`: an empty AND junction. -/
def conjunction : Criterion := .junction .and_ []

/-- `slims.criteria.disjunction()`: an empty OR junction. -/
def disjunction : Criterion := .junction .or_ []

/-- `slims.criteria.is_not`: a NOT junction wrapping one member. -/
def is_not (c : Criterion) : Criterion := .junction .not_ [c]

def equals (f : String) (v : SlimsValue) : Criterion := .leaf "equals" f [v]

def is_one_of (f : String) (vs : List SlimsValue) : Criterion := .leaf "is_one_of" f vs

def equals_ignore_case (f : String) (v : SlimsValue) : Criterion :=
  .leaf "equals_ignore_case" f [v]

def contains (f : String) (v : SlimsValue) : Criterion := .leaf "contains" f [v]

def starts_with (f : String) (v : SlimsValue) : Criterion := .leaf "starts_with" f [v]

def ends_with (f : String) (v : SlimsValue) : Criterion := .leaf "ends_with" f [v]

def between_inclusive (f : String) (vs : List SlimsValue) : Criterion :=
  .leaf "between_inclusive" f vs

def greater_than (f : String) (v : SlimsValue) : Criterion := .leaf "greater_than" f [v]

def less_than (f : String) (v : SlimsValue) : Criterion := .leaf "less_than" f [v]

/-- A SLIMS record as the module reads it: `pk()` and
`cntn_fk_originalContent.value`. -/
structure Record where
  pk : Nat
  originalContent : Nat
  deriving DecidableEq, Repr

/-! ## Tokenizer (`split_criteria`, util.py lines 34-69)

String scanning is done on character lists so that every step is
structural recursion; `normWsChars` is Python's
`" ".join(criteria.split())` whitespace normalization. -/

def isWs (c : Char) : Bool := c.isWhitespace

/-- Split on whitespace runs, dropping empty parts (Python `str.split()`). -/
def splitWsAux : List Char → List Char → List (List Char)
  | [], acc => if acc = [] then [] else [acc.reverse]
  | c :: rest, acc =>
    if isWs c then
      if acc = [] then splitWsAux rest [] else acc.reverse :: splitWsAux rest []
    else splitWsAux rest (c :: acc)

/-- Join words with single spaces (Python `" ".join(...)`). -/
def joinSpaces : List (List Char) → List Char
  | [] => []
  | [w] => w
  | w :: ws => w ++ ' ' :: joinSpaces ws

/-- Python `" ".join(criteria.split())`. -/
def normWsChars (cs : List Char) : List Char := joinSpaces (splitWsAux cs [])

/-- Python `str.strip()`. -/
def trimChars (cs : List Char) : List Char :=
  ((cs.dropWhile isWs).reverse.dropWhile isWs).reverse

/-- The character scan of `split_criteria`: state is the remaining input,
the parenthesis `depth`, the token under construction `part`, and the
emitted tokens `parts`.  Branches follow the Python `while` body,
including the walrus side effects on `depth`. -/
def splitLoop : List Char → Int → List Char → List (List Char) → Int × List Char × List (List Char)
  | [], depth, part, parts => (depth, part, parts)
  | c :: rest, depth, part, parts =>
    if c = '(' then
      if depth + 1 = 1 then splitLoop rest (depth + 1) [] parts
      else splitLoop rest (depth + 1) (part ++ ['(']) parts
    else if c = ')' then
      if depth - 1 = 0 then splitLoop rest (depth - 1) [] (parts ++ [part])
      else splitLoop rest (depth - 1) (part ++ [')']) parts
    else if depth > 0 then splitLoop rest depth (part ++ [c]) parts
    else if c = ' ' ∧ part ≠ [] then splitLoop rest depth [] (parts ++ [trimChars part])
    else splitLoop rest depth (part ++ [c]) parts

/-- `split_criteria` from `util.py`: tokenize a criteria string,
maintaining parentheses; unmatched parentheses raise `ValueError`. -/
def split_criteria (criteria : String) : Except String (List String) :=
  match splitLoop (normWsChars criteria.toList) 0 [] [] with
  | (depth, part, parts) =>
    if depth ≠ 0 then .error ("Unmatched parentheses: " ++ criteria)
    else if part ≠ [] then .ok ((parts ++ [trimChars part]).map String.mk)
    else .ok (parts.map String.mk)

/-! ## Legacy tokenizer (`_split_criteria`, `__init__.py` lines 33-73) -/

/-- Is `p` a leading segment of `s`? (used for Python's slice lookahead
`_criteria[1:4] == "and"` and the substring test `w in s`). -/
def leadsWith : List Char → List Char → Bool
  | [], _ => true
  | _ :: _, [] => false
  | p :: ps, c :: cs => p == c && leadsWith ps cs

/-- Python substring containment `w in s`. -/
def containsSeq : List Char → List Char → Bool
  | pat, [] => pat.isEmpty
  | pat, c :: rest => leadsWith pat (c :: rest) || containsSeq pat rest

/-- The character scan of the legacy `_split_criteria`: lookahead of the
current character decides whether an `"and"`/`"or"` separator follows at
depth 0.  Note the Python code never resets `part` after flushing it at a
closing parenthesis. -/
def uSplitLoop : List Char → Int → List Char → List (List Char) → Int × List (List Char)
  | [], depth, _, parts => (depth, parts)
  | c :: rest, depth, part, parts =>
    if c = '(' then
      uSplitLoop rest (depth + 1) (if depth > 0 then part ++ ['('] else part) parts
    else if c = ')' then
      uSplitLoop rest (depth - 1) (if depth > 1 then part ++ [')'] else part) (parts ++ [if depth > 1 then part ++ [')'] else part])
    else if leadsWith ['a', 'n', 'd'] rest ∧ depth = 0 then
      uSplitLoop (rest.drop 4) depth [] (parts ++ [part, ['a', 'n', 'd']])
    else if leadsWith ['o', 'r'] rest ∧ depth = 0 then
      uSplitLoop (rest.drop 3) depth [] (parts ++ [part, ['o', 'r']])
    else if rest = [] then
      uSplitLoop rest depth (part ++ [c]) (parts ++ [part ++ [c]])
    else
      uSplitLoop rest depth (part ++ [c]) parts
termination_by cs _ _ _ => cs.length
decreasing_by
  all_goals simp [List.length_drop]
  all_goals omega

/-- `_split_criteria` from `__init__.py`, with fuel for the trailing
`while` loop that re-splits a single part still containing boolean
keywords or parentheses. -/
def underscore_split_criteria : Nat → String → Except String (List String)
  | 0, _ => .error "recursion limit"
  | fuel + 1, criteria =>
    match uSplitLoop (normWsChars criteria.toList) 0 [] [] with
    | (depth, parts) =>
      if depth ≠ 0 then .error ("Unmatched parentheses: " ++ criteria)
      else
        match parts with
        | [p] =>
          if containsSeq " and ".toList p || containsSeq " or ".toList p ||
              containsSeq "(".toList p || containsSeq ")".toList p then
            underscore_split_criteria fuel (String.mk p)
          else .ok [String.mk p]
        | ps => .ok (ps.map String.mk)

/-! ## Parser (`parse_criteria`, util.py lines 71-165) -/

/-- The operator words whose absence from a raw criteria string makes it
invalid (first `case` of `parse_criteria`). -/
def operatorWords : List String :=
  ["equals", "not_equals", "one_of", "not_one_of", "equals_ignore_case",
   "not_equals_ignore_case", "contains", "not_contains", "starts_with",
   "not_starts_with", "ends_with", "not_ends_with", "between", "not_between",
   "greater_than", "less_than"]

def containsWord (s w : String) : Bool := containsSeq w.toList s.toList

def strLeads (p s : String) : Bool := leadsWith p.toList s.toList

inductive ParseErr where
  | invalid (msg : String)
  | fuelExhausted
  deriving DecidableEq, Repr

/-- The leaf cases of `parse_criteria` (field / operator / values), in
source order.  Assumes the field-prefix check has already passed. -/
def parseLeaf : List String → Except ParseErr Criterion
  | [f, "equals", v] => .ok (equals f (.str v))
  | [f, "not_equals", v] => .ok (is_not (equals f (.str v)))
  | f :: "one_of" :: vs => .ok (is_one_of f (vs.map .str))
  | f :: "not_one_of" :: vs => .ok (is_not (is_one_of f (vs.map .str)))
  | [f, "equals_ignore_case", v] => .ok (equals_ignore_case f (.str v))
  | [f, "not_equals_ignore_case", v] => .ok (is_not (equals_ignore_case f (.str v)))
  | [f, "contains", v] => .ok (contains f (.str v))
  | [f, "not_contains", v] => .ok (is_not (contains f (.str v)))
  | [f, "starts_with", v] => .ok (starts_with f (.str v))
  | [f, "not_starts_with", v] => .ok (is_not (starts_with f (.str v)))
  | [f, "ends_with", v] => .ok (ends_with f (.str v))
  | [f, "not_ends_with", v] => .ok (is_not (ends_with f (.str v)))
  | f :: "between" :: vs => .ok (between_inclusive f (vs.map .str))
  | f :: "not_between" :: vs => .ok (is_not (between_inclusive f (vs.map .str)))
  | [f, "greater_than", v] => .ok (greater_than f (.str v))
  | [f, "less_than", v] => .ok (less_than f (.str v))
  | toks => .error (.invalid (String.intercalate " " toks))

/-- `parse_criteria` from `util.py`.  The argument is either a raw string
(`.inl`) or a token list (`.inr`), matching the Python `str | list[str]`
signature; fuel models CPython's recursion limit (a one-word token
re-splits to itself and recurses forever in the source). -/
def parse_criteria : Nat → String ⊕ List String → Except ParseErr Criterion
  | 0, _ => .error .fuelExhausted
  | fuel + 1, .inl s =>
    if operatorWords.all (fun w => !(containsWord s w)) then .error (.invalid s)
    else
      match split_criteria s with
      | .error m => .error (.invalid m)
      | .ok toks => parse_criteria fuel (.inr toks)
  | fuel + 1, .inr toks =>
    match toks with
    | [criterion] =>
      match split_criteria criterion with
      | .error m => .error (.invalid m)
      | .ok toks2 => parse_criteria fuel (.inr toks2)
    | _ =>
      if toks.any (· == "and") then
        let idx := toks.findIdx (· == "and")
        match parse_criteria fuel (.inr (toks.take idx)) with
        | .error e => .error e
        | .ok a =>
          match parse_criteria fuel (.inr (toks.drop (idx + 1))) with
          | .error e => .error e
          | .ok b => .ok ((conjunction.add a).add b)
      else if toks.any (· == "or") then
        let idx := toks.findIdx (· == "or")
        match parse_criteria fuel (.inr (toks.take idx)) with
        | .error e => .error e
        | .ok a =>
          match parse_criteria fuel (.inr (toks.drop (idx + 1))) with
          | .error e => .error e
          | .ok b => .ok ((disjunction.add a).add b)
      else
        match toks with
        | "has_parent" :: a =>
          match parse_criteria fuel (.inr a) with
          | .error e => .error e
          | .ok inner => .ok (.hasParent inner false)
        | "not_has_parent" :: a =>
          match parse_criteria fuel (.inr a) with
          | .error e => .error e
          | .ok inner => .ok (.hasParent inner true)
        | "has_derived" :: a =>
          match parse_criteria fuel (.inr a) with
          | .error e => .error e
          | .ok inner => .ok (.hasDerived inner false)
        | "not_has_derived" :: a =>
          match parse_criteria fuel (.inr a) with
          | .error e => .error e
          | .ok inner => .ok (.hasDerived inner true)
        | f :: rest =>
          if !(strLeads "cntn_" f) then .error (.invalid ("Invalid field: " ++ f))
          else parseLeaf (f :: rest)
        | [] => .error (.invalid "")

/-! ## Relationship-subtree scan
(`barnch_has_parent_derived_criteria`, util.py lines 232-251) -/

mutual

/-- `barnch_has_parent_derived_criteria` from `util.py`, as written: the
loop variable `ret` is overwritten by the recursive result whenever a
member is itself a junction. -/
def barnch_has_parent_derived_criteria : Criterion → Bool
  | .junction _ ms => barnchFold ms false
  | .hasParent _ _ => true
  | .hasDerived _ _ => true
  | .leaf _ _ _ => false

/-- The member loop of `barnch_has_parent_derived_criteria`, threading
`ret` exactly as the Python `for` body does. -/
def barnchFold : List Criterion → Bool → Bool
  | [], ret => ret
  | m :: rest, ret =>
    match m with
    | .junction op2 ms2 => barnchFold rest (barnch_has_parent_derived_criteria (.junction op2 ms2))
    | .hasParent _ _ => barnchFold rest true
    | .hasDerived _ _ => barnchFold rest true
    | .leaf _ _ _ => barnchFold rest ret

end

mutual

/-- The subtree scan as the spec describes it: does a `HasParent` or
`HasDerived` node occur anywhere in the subtree?  Written from the spec's
words ("contains a HasParent or HasDerived node anywhere in it") for
comparison with `barnch_has_parent_derived_criteria`. -/
def subtree_has_relationship : Criterion → Bool
  | .junction _ ms => subtreeListHasRelationship ms
  | .hasParent _ _ => true
  | .hasDerived _ _ => true
  | .leaf _ _ _ => false

def subtreeListHasRelationship : List Criterion → Bool
  | [] => false
  | m :: rest => subtree_has_relationship m || subtreeListHasRelationship rest

end

/-! ## Resolver (`resolve_criteria`, util.py lines 254-390) -/

inductive ResolveErr where
  | noMatch
  | noOp
  | unboundLocal (name : String)
  | indexError
  deriving DecidableEq, Repr

/-- The criterion the `HasParent` register fetches parent candidates with:
a conjunction of (when a base criterion is supplied) "pk is one of the
originalContent values of the base-matching records" and the inner
criterion. -/
def hasParentQuery (conn : String → Criterion → List Record)
    (base : Option Criterion) (inner : Criterion) : Criterion :=
  let c1 := match base with
    | some b =>
      conjunction.add
        (is_one_of "cntn_pk" (((conn "Content" b).map Record.originalContent).map SlimsValue.num))
    | none => conjunction
  c1.add inner

/-- The base criterion the AND branch of the junction register builds:
`_base or conjunction()` extended with every member whose subtree scan
reports no relationship operator. -/
def andBase (base : Option Criterion) (ms : List Criterion) : Criterion :=
  ms.foldl (fun acc m => if barnch_has_parent_derived_criteria m then acc else acc.add m)
    (base.getD conjunction)

mutual

/-- `resolve_criteria` from `util.py` (all `singledispatch` registers).
Plain criteria return unchanged; `HasParent` / `HasDerived` are replaced
by primary-key filters via intermediate fetches; AND junctions suppress
`NoOp` per member, OR junctions suppress `NoMatch` per member; the
`HasDerived` register reads the local `derived` without assigning it when
no base criterion is supplied, which CPython reports as
`UnboundLocalError`. -/
def resolve_criteria (conn : String → Criterion → List Record) :
    Criterion → Option Criterion → Except ResolveErr Criterion
  | .leaf o f v, _ => .ok (.leaf o f v)
  | .hasParent inner negate, base =>
    match conn "Content" (hasParentQuery conn base inner) with
    | [] => if negate then .error .noOp else .error .noMatch
    | p :: ps =>
      let resolved := is_one_of "cntn_fk_originalContent" (((p :: ps).map Record.pk).map SlimsValue.num)
      .ok (if negate then is_not resolved else resolved)
  | .hasDerived inner negate, base =>
    match base with
    | none => .error (.unboundLocal "derived")
    | some b =>
      let parents := conn "Content" b
      let derived : Option (List Record) :=
        if (parents.map Record.pk) ≠ [] then
          some (conn "Content"
            ((conjunction.add inner).add
              (is_one_of "cntn_fk_originalContent" ((parents.map Record.pk).map SlimsValue.num))))
        else none
      match derived with
      | some (d :: ds) =>
        let resolved := is_one_of "cntn_pk" (((d :: ds).map Record.originalContent).map SlimsValue.num)
        .ok (if negate then is_not resolved else resolved)
      | _ => if negate then .error .noOp else .error .noMatch
  | .junction .and_ ms, base =>
    match resolveAndMembers conn (andBase base ms) ms with
    | .error e => .error e
    | .ok [] => .error .noOp
    | .ok rs => .ok (.junction .and_ rs)
  | .junction .or_ ms, base =>
    match resolveOrMembers conn base ms with
    | .error e => .error e
    | .ok [] => .error .noMatch
    | .ok rs => .ok (.junction .or_ rs)
  | .junction .not_ ms, base =>
    match ms with
    | [] => .error .indexError
    | m :: _ =>
      match resolve_criteria conn m base with
      | .error e => .error e
      | .ok r => .ok (.junction .not_ [r])

/-- The AND member loop: `with suppress(NoOp): resolved.add(...)`. -/
def resolveAndMembers (conn : String → Criterion → List Record) :
    Criterion → List Criterion → Except ResolveErr (List Criterion)
  | _, [] => .ok []
  | b, m :: rest =>
    match resolve_criteria conn m (some b) with
    | .ok c =>
      match resolveAndMembers conn b rest with
      | .ok rs => .ok (c :: rs)
      | .error e => .error e
    | .error .noOp => resolveAndMembers conn b rest
    | .error e => .error e

/-- The OR member loop: `with suppress(NoMatch): resolved.add(...)`. -/
def resolveOrMembers (conn : String → Criterion → List Record) :
    Option Criterion → List Criterion → Except ResolveErr (List Criterion)
  | _, [] => .ok []
  | base, m :: rest =>
    match resolve_criteria conn m base with
    | .ok c =>
      match resolveOrMembers conn base rest with
      | .ok rs => .ok (c :: rs)
      | .error e => .error e
    | .error .noMatch => resolveOrMembers conn base rest
    | .error e => .error e

end

/-! ## Normalizer (`unnest_criteria`, util.py lines 393-408) -/

mutual

/-- `unnest_criteria` from `util.py`: splice a member junction's members
into its parent when the operators agree; keep differing operators
nested; non-junction criteria pass through unchanged. -/
def unnest_criteria : Criterion → Criterion
  | .junction op ms => .junction op (unnestMembers op ms)
  | c => c

/-- The member loop of `unnest_criteria`. -/
def unnestMembers : JuncOp → List Criterion → List Criterion
  | _, [] => []
  | op, m :: rest =>
    match m with
    | .junction op2 ms2 =>
      match unnest_criteria (.junction op2 ms2) with
      | .junction op3 ms3 =>
        if op3 = op then ms3 ++ unnestMembers op rest
        else .junction op3 ms3 :: unnestMembers op rest
      | c => c :: unnestMembers op rest
    | c => c :: unnestMembers op rest

end

/-! ## Validator (`validate_criteria`, util.py lines 411-432) -/

mutual

/-- `validate_criteria` from `util.py`: every leaf's field must exist in
the `Field` table of the store. -/
def validate_criteria (conn : String → Criterion → List Record) :
    Criterion → Except String Unit
  | .junction _ ms => validateMembers conn ms
  | .hasParent v _ => validate_criteria conn v
  | .hasDerived v _ => validate_criteria conn v
  | .leaf _ f _ =>
    match conn "Field" (equals "tbfl_name" (.str f)) with
    | [] => .error ("Invalid field: " ++ f)
    | _ => .ok ()

def validateMembers (conn : String → Criterion → List Record) :
    List Criterion → Except String Unit
  | [] => .ok ()
  | m :: rest =>
    match validate_criteria conn m with
    | .ok _ => validateMembers conn rest
    | .error e => .error e

end

/-! ## Top-level query (`get_records`, util.py lines 435-451) -/

inductive GetRecordsErr where
  | parseErr (e : ParseErr)
  | invalidField (msg : String)
  | resolveErr (e : ResolveErr)
  deriving DecidableEq, Repr

/-- `get_records` from `util.py` on a string criteria: parse, unnest,
validate, resolve; `NoMatch` and `NoOp` both return zero records without
issuing the final fetch (each with a warning in the source); any other
resolution error propagates. -/
def get_records (fuel : Nat) (conn : String → Criterion → List Record)
    (criteria : String) : Except GetRecordsErr (List Record) :=
  match parse_criteria fuel (.inl criteria) with
  | .error e => .error (.parseErr e)
  | .ok parsed =>
    let unnested := unnest_criteria parsed
    match validate_criteria conn unnested with
    | .error m => .error (.invalidField m)
    | .ok _ =>
      match resolve_criteria conn unnested none with
      | .error .noMatch => .ok []
      | .error .noOp => .ok []
      | .error e => .error (.resolveErr e)
      | .ok resolved => .ok (conn "Content" resolved)

/-! ## Paginated fetch (`PaginatedSlims.iter_fetch`, connection.py lines 57-77)

Modelled from the spec: the remote store's single-page
`Slims.fetch(table, criteria, sort, start, end)` primitive (the `slims`
client library, not part of this repository) returns the slice
`[start, end)` of the records matching the criteria; `iter_fetch` below is
the loop of `connection.py` over that primitive, with `records` standing
for the full matching result set. -/

/-- The `__init__` default for `page_size` in `PaginatedSlims`. -/
def default_page_size : Nat := 100

/-- The page `super().fetch(...)` returns at offset `st`: the slice
`[st, min(end, st + page_size))` of the matching records. -/
def pageAt (records : List Record) (ps : Nat) (e : Option Nat) (st : Nat) : List Record :=
  let stop := match e with | none => st + ps | some en => min en (st + ps)
  (records.drop st).take (stop - st)

/-- The `while` loop of `iter_fetch`: fetch the slice
`[start, min(end, start + page_size))`, stop at the first empty page,
advance the offset by the page size after each yielded page. -/
def iterLoop (records : List Record) (ps : Nat) (e : Option Nat) (st : Nat) :
    List (List Record) :=
  if h : pageAt records ps e st = [] then []
  else pageAt records ps e st :: iterLoop records ps e (st + ps)
termination_by records.length - st
decreasing_by
  have hdrop : records.drop st ≠ [] := by
    intro hd
    apply h
    simp [pageAt, hd]
  have hst : st < records.length := by
    rcases Nat.lt_or_ge st records.length with h1 | h1
    · exact h1
    · exact absurd (List.drop_eq_nil_of_le h1) hdrop
  have hps : 0 < ps := by
    by_contra hp
    have hps0 : ps = 0 := by omega
    apply h
    cases e with
    | none =>
      have hz : st + ps - st = 0 := by omega
      simp [pageAt, hz]
    | some en =>
      have hz : min en (st + ps) - st = 0 := by omega
      simp [pageAt, hz]
  omega

/-- `iter_fetch` from `connection.py`: `start or 0` and `end or inf`
(so an explicit `end=0` is falsy in Python and means "no end"). -/
def iter_fetch (records : List Record) (ps : Nat) (start e : Option Nat) :
    List (List Record) :=
  let eEff : Option Nat := match e with
    | some en => if en = 0 then none else some en
    | none => none
  iterLoop records ps eEff (start.getD 0)

/-! ## Concrete fixtures used by the theorems below -/

/-- A store with no content at all. -/
def connEmpty : String → Criterion → List Record := fun _ _ => []

/-- A store in which every fetch returns one record with pk 7 and
originalContent 3. -/
def connOneParent : String → Criterion → List Record := fun _ _ => [⟨7, 3⟩]

/-- A store whose `Field` table knows every field, whose `Content` table
is empty for the parent query of `cntn_x equals 1`, and which otherwise
holds one record. -/
def connNoParent : String → Criterion → List Record := fun table c =>
  if table = "Field" then [⟨0, 0⟩]
  else if c = conjunction.add (equals "cntn_x" (.str "1")) then []
  else [⟨1, 1⟩]

/-- A `HasParent` node whose resolution raises `NoOp` against an empty
store (negated, zero candidate parents). -/
def hpNoOp : Criterion := .hasParent (equals "cntn_x" (.str "1")) true

/-- A `HasParent` node whose resolution raises `NoMatch` against an empty
store (not negated, zero candidate parents). -/
def hpNoMatch : Criterion := .hasParent (equals "cntn_x" (.str "1")) false

/-- A plain leaf criterion; it resolves to itself. -/
def leafS1 : Criterion := equals "cntn_id" (.str "S1")

/-- The junction member on which the subtree scan goes wrong: it contains
a `HasParent` node, but its last member is a junction without one. -/
def badBranch : Criterion :=
  .junction .and_ [.hasParent (equals "cntn_x" (.str "1")) false,
                   .junction .and_ [equals "cntn_y" (.str "2")]]

/-- The tokenizer example string used by the spec. -/
def exampleCriteria : String := "a is x and (b is y or c is d) or g is h"

/-- Token list mixing `or` before `and` at the top level. -/
def mixedToks : List String :=
  ["cntn_a", "equals", "x", "or", "cntn_b", "equals", "y", "and", "cntn_c", "equals", "z"]

/-- Five matching records, for the pagination boundary example. -/
def r5 : List Record := [⟨0, 0⟩, ⟨1, 0⟩, ⟨2, 0⟩, ⟨3, 0⟩, ⟨4, 0⟩]

/-! ## Helper lemmas -/

theorem pageAt_facts (records : List Record) (ps : Nat) (e : Option Nat) (st : Nat)
    (h : pageAt records ps e st ≠ []) : st < records.length ∧ 0 < ps := by
  have hdrop : records.drop st ≠ [] := by
    intro hd
    apply h
    simp [pageAt, hd]
  have hst : st < records.length := by
    rcases Nat.lt_or_ge st records.length with h1 | h1
    · exact h1
    · exact absurd (List.drop_eq_nil_of_le h1) hdrop
  refine ⟨hst, ?_⟩
  by_contra hp
  have hps0 : ps = 0 := by omega
  apply h
  cases e with
  | none =>
    have hz : st + ps - st = 0 := by omega
    simp [pageAt, hz]
  | some en =>
    have hz : min en (st + ps) - st = 0 := by omega
    simp [pageAt, hz]

/-- Auxiliary record of what the legacy `_split_criteria` actually returns
on the spec's example: the token flushed at the closing parenthesis is
emitted twice, because the scan never resets `part` after a `)`. -/
theorem underscore_split_criteria_example :
    underscore_split_criteria 9 exampleCriteria =
      .ok ["a is x", "and", "b is y or c is d", "b is y or c is d", "or", "g is h"] := by
  simp [exampleCriteria, underscore_split_criteria, uSplitLoop, normWsChars, splitWsAux,
    joinSpaces, isWs, leadsWith, containsSeq]

/-! ## Claim theorems -/

/-- C7 counterexample: on the spec's example string, `split_criteria`
does not return the five clause-level tokens the claim states; it keeps
every word a separate token. -/
theorem split_criteria_not_clause_tokens :
    split_criteria exampleCriteria =
      .ok ["a", "is", "x", "and", "b is y or c is d", "or", "g", "is", "h"] ∧
    (["a", "is", "x", "and", "b is y or c is d", "or", "g", "is", "h"] : List String) ≠
      ["a is x", "and", "b is y or c is d", "or", "g is h"] :=
  ⟨rfl, by decide⟩

/-- C7 (amended): `split_criteria "a is x and (b is y or c is d) or g is h"`
returns `["a", "is", "x", "and", "b is y or c is d", "or", "g", "is", "h"]`:
parenthesized sub-expressions are kept as single opaque tokens with their
outermost parentheses stripped, and every other whitespace-separated word
at nesting depth 0 (`"and"` and `"or"` included) is emitted as its own
token. -/
theorem split_criteria_word_tokens :
    split_criteria exampleCriteria =
      .ok ["a", "is", "x", "and", "b is y or c is d", "or", "g", "is", "h"] := rfl

/-- C4: resolving a `HasDerived` node with no base filter supplied (as at
top level) does not return a filter or raise `NoOp`/`NoMatch`: the
register reads the local `derived` without ever assigning it, so CPython
raises `UnboundLocalError` for every inner criterion and negate flag. -/
theorem hasderived_unbound_local_without_base
    (conn : String → Criterion → List Record) (inner : Criterion) (negate : Bool) :
    resolve_criteria conn (.hasDerived inner negate) none =
      .error (.unboundLocal "derived") := rfl

/-- C6: the subtree scan `barnch_has_parent_derived_criteria` is not
"contains a HasParent or HasDerived anywhere": on a junction whose first
member is a `HasParent` and whose last member is a junction without one,
the loop overwrites the `True` already found, returns `False`, and the
AND base built from such a member therefore includes a member that does
carry a relationship operator. -/
theorem barnch_misses_relationship_in_nested_junction :
    barnch_has_parent_derived_criteria badBranch = false ∧
    subtree_has_relationship badBranch = true ∧
    andBase none [badBranch] = conjunction.add badBranch :=
  ⟨rfl, rfl, rfl⟩

/-- C3: resolving `HasParent(inner, negate)` fetches the parent candidates
with `inner` (conjoined, when a base is supplied, with "pk one_of the
originalContent values of the base-matching records"); zero candidates
raise `NoOp` when `negate` and `NoMatch` otherwise; otherwise the result
is the leaf "cntn_fk_originalContent one_of [parent pks]", wrapped in a
negation exactly when `negate`. -/
theorem hasparent_resolution (conn : String → Criterion → List Record)
    (inner : Criterion) (negate : Bool) (base : Option Criterion) :
    (conn "Content" (hasParentQuery conn base inner) = [] →
      resolve_criteria conn (.hasParent inner negate) base =
        .error (if negate then .noOp else .noMatch)) ∧
    (∀ p ps, conn "Content" (hasParentQuery conn base inner) = p :: ps →
      resolve_criteria conn (.hasParent inner negate) base =
        .ok (if negate then
              is_not (is_one_of "cntn_fk_originalContent" (((p :: ps).map Record.pk).map SlimsValue.num))
            else
              is_one_of "cntn_fk_originalContent" (((p :: ps).map Record.pk).map SlimsValue.num))) := by
  constructor
  · intro h
    simp only [resolve_criteria, h]
    cases negate <;> simp
  · intro p ps h
    simp only [resolve_criteria, h]

/-- C3 witness: against an empty store a negated `HasParent` raises
`NoOp`, and against a store holding one parent with pk 7 an unnegated
`HasParent` resolves to "cntn_fk_originalContent one_of [7]". -/
theorem hasparent_resolution_witness :
    resolve_criteria connEmpty hpNoOp none = .error .noOp ∧
    resolve_criteria connOneParent (.hasParent (equals "cntn_x" (.str "1")) false) none =
      .ok (is_one_of "cntn_fk_originalContent" [.num 7]) := by
  constructor
  · exact (hasparent_resolution connEmpty (equals "cntn_x" (.str "1")) true none).1 rfl
  · exact (hasparent_resolution connOneParent (equals "cntn_x" (.str "1")) false none).2
      ⟨7, 3⟩ [] rfl

theorem resolveAndMembers_all_noOp (conn : String → Criterion → List Record)
    (b : Criterion) :
    ∀ ms : List Criterion,
      (∀ m ∈ ms, resolve_criteria conn m (some b) = .error .noOp) →
      resolveAndMembers conn b ms = .ok [] := by
  intro ms
  induction ms with
  | nil => intro _; rfl
  | cons m rest ih =>
    intro h
    have hm := h m (by simp)
    simp only [resolveAndMembers]
    rw [hm]
    exact ih (fun x hx => h x (by simp [hx]))

theorem resolveAndMembers_noMatch (conn : String → Criterion → List Record)
    (b : Criterion) :
    ∀ (pre : List Criterion) (m : Criterion) (post : List Criterion),
      (∀ p ∈ pre, (∃ c, resolve_criteria conn p (some b) = .ok c) ∨
        resolve_criteria conn p (some b) = .error .noOp) →
      resolve_criteria conn m (some b) = .error .noMatch →
      resolveAndMembers conn b (pre ++ m :: post) = .error .noMatch := by
  intro pre
  induction pre with
  | nil =>
    intro m post _ hm
    simp only [List.nil_append, resolveAndMembers]
    rw [hm]
  | cons p pre ih =>
    intro m post hpre hm
    rcases hpre p (by simp) with ⟨c, hc⟩ | hnoop
    · simp only [List.cons_append, resolveAndMembers, List.append_eq]
      rw [hc, ih m post (fun x hx => hpre x (by simp [hx])) hm]
    · simp only [List.cons_append, resolveAndMembers]
      rw [hnoop]
      exact ih m post (fun x hx => hpre x (by simp [hx])) hm

theorem resolveOrMembers_all_noMatch (conn : String → Criterion → List Record)
    (base : Option Criterion) :
    ∀ ms : List Criterion,
      (∀ m ∈ ms, resolve_criteria conn m base = .error .noMatch) →
      resolveOrMembers conn base ms = .ok [] := by
  intro ms
  induction ms with
  | nil => intro _; rfl
  | cons m rest ih =>
    intro h
    have hm := h m (by simp)
    simp only [resolveOrMembers]
    rw [hm]
    exact ih (fun x hx => h x (by simp [hx]))

theorem resolveOrMembers_noOp (conn : String → Criterion → List Record)
    (base : Option Criterion) :
    ∀ (pre : List Criterion) (m : Criterion) (post : List Criterion),
      (∀ p ∈ pre, (∃ c, resolve_criteria conn p base = .ok c) ∨
        resolve_criteria conn p base = .error .noMatch) →
      resolve_criteria conn m base = .error .noOp →
      resolveOrMembers conn base (pre ++ m :: post) = .error .noOp := by
  intro pre
  induction pre with
  | nil =>
    intro m post _ hm
    simp only [List.nil_append, resolveOrMembers]
    rw [hm]
  | cons p pre ih =>
    intro m post hpre hm
    rcases hpre p (by simp) with ⟨c, hc⟩ | hnomatch
    · simp only [List.cons_append, resolveOrMembers, List.append_eq]
      rw [hc, ih m post (fun x hx => hpre x (by simp [hx])) hm]
    · simp only [List.cons_append, resolveOrMembers]
      rw [hnomatch]
      exact ih m post (fun x hx => hpre x (by simp [hx])) hm

/-- C1 counterexample: with members `[A, B]` where resolving `A` raises
`NoOp` and `B` resolves normally, `resolve_criteria` of the AND junction
returns an AND junction wrapping `resolve(B)` — which is not equal to
`resolve(B)` alone, as the claim states. -/
theorem and_shortcircuit_not_literal_equality :
    resolve_criteria connEmpty (.junction .and_ [hpNoOp, leafS1]) none =
      .ok (.junction .and_ [leafS1]) ∧
    resolve_criteria connEmpty leafS1 none = .ok leafS1 ∧
    (Criterion.junction .and_ [leafS1]) ≠ leafS1 :=
  ⟨rfl, rfl, by decide⟩

/-- C1 (amended): in an AND junction every member is resolved against the
built base; a member raising `NoOp` is dropped rather than failing the
junction (for `[A, B]` with `A` a no-op and `B` resolving to `rB`, the
result is an AND junction whose sole member is `rB` — not `rB` alone);
if every member is dropped the whole junction raises `NoOp`; a member
raising `NoMatch` (the ones before it having resolved or been dropped)
makes `NoMatch` propagate out of the junction. -/
theorem and_junction_resolution :
    (∀ (conn : String → Criterion → List Record) (base : Option Criterion) (A B rB : Criterion),
      resolve_criteria conn A (some (andBase base [A, B])) = .error .noOp →
      resolve_criteria conn B (some (andBase base [A, B])) = .ok rB →
      resolve_criteria conn (.junction .and_ [A, B]) base = .ok (.junction .and_ [rB])) ∧
    (∀ (conn : String → Criterion → List Record) (base : Option Criterion) (ms : List Criterion),
      (∀ m ∈ ms, resolve_criteria conn m (some (andBase base ms)) = .error .noOp) →
      resolve_criteria conn (.junction .and_ ms) base = .error .noOp) ∧
    (∀ (conn : String → Criterion → List Record) (base : Option Criterion)
        (pre : List Criterion) (m : Criterion) (post : List Criterion),
      (∀ p ∈ pre,
        (∃ c, resolve_criteria conn p (some (andBase base (pre ++ m :: post))) = .ok c) ∨
        resolve_criteria conn p (some (andBase base (pre ++ m :: post))) = .error .noOp) →
      resolve_criteria conn m (some (andBase base (pre ++ m :: post))) = .error .noMatch →
      resolve_criteria conn (.junction .and_ (pre ++ m :: post)) base = .error .noMatch) := by
  refine ⟨?_, ?_, ?_⟩
  · intro conn base A B rB hA hB
    have h1 : resolveAndMembers conn (andBase base [A, B]) [A, B] = .ok [rB] := by
      simp only [resolveAndMembers]
      rw [hA, hB]
    simp only [resolve_criteria]
    rw [h1]
  · intro conn base ms h
    have h1 := resolveAndMembers_all_noOp conn (andBase base ms) ms h
    simp only [resolve_criteria]
    rw [h1]
  · intro conn base pre m post hpre hm
    have h1 := resolveAndMembers_noMatch conn (andBase base (pre ++ m :: post)) pre m post hpre hm
    simp only [resolve_criteria]
    rw [h1]

/-- C1 witness: concrete AND junctions against an empty store — a dropped
no-op member, an all-no-op junction, and a propagating `NoMatch`. -/
theorem and_junction_resolution_witness :
    resolve_criteria connEmpty (.junction .and_ [hpNoOp, leafS1]) none =
      .ok (.junction .and_ [leafS1]) ∧
    resolve_criteria connEmpty (.junction .and_ [hpNoOp]) none = .error .noOp ∧
    resolve_criteria connEmpty (.junction .and_ [hpNoMatch, leafS1]) none = .error .noMatch := by
  refine ⟨?_, ?_, ?_⟩
  · exact and_junction_resolution.1 connEmpty none hpNoOp leafS1 leafS1 rfl rfl
  · refine and_junction_resolution.2.1 connEmpty none [hpNoOp] ?_
    intro m hm
    have : m = hpNoOp := by simpa using hm
    rw [this]
    rfl
  · exact and_junction_resolution.2.2 connEmpty none [] hpNoMatch [leafS1]
      (by intro p hp; simp at hp) rfl

/-- C2 counterexample: in an OR junction a single member raising `NoOp`
makes the whole junction raise `NoOp` immediately, even though the other
member resolves normally — contradicting "NoOp propagates only if all
branches raise NoOp". -/
theorem or_junction_noop_propagates_immediately :
    resolve_criteria connEmpty (.junction .or_ [hpNoOp, leafS1]) none = .error .noOp ∧
    resolve_criteria connEmpty leafS1 none = .ok leafS1 :=
  ⟨rfl, rfl⟩

/-- C2 (amended): in an OR junction every member is resolved independently
against the original base and `NoMatch` is suppressed per member (for
`[A, B]` with `A` raising `NoMatch` and `B` resolving to `rB`, the result
is an OR junction whose sole member is `rB` — not `rB` alone); if every
member raises `NoMatch` the whole junction raises `NoMatch`; but `NoOp`
raised by any single member (the ones before it having resolved or been
suppressed) propagates immediately out of the junction — not only when
all branches raise `NoOp`. -/
theorem or_junction_resolution :
    (∀ (conn : String → Criterion → List Record) (base : Option Criterion) (A B rB : Criterion),
      resolve_criteria conn A base = .error .noMatch →
      resolve_criteria conn B base = .ok rB →
      resolve_criteria conn (.junction .or_ [A, B]) base = .ok (.junction .or_ [rB])) ∧
    (∀ (conn : String → Criterion → List Record) (base : Option Criterion) (ms : List Criterion),
      (∀ m ∈ ms, resolve_criteria conn m base = .error .noMatch) →
      resolve_criteria conn (.junction .or_ ms) base = .error .noMatch) ∧
    (∀ (conn : String → Criterion → List Record) (base : Option Criterion)
        (pre : List Criterion) (m : Criterion) (post : List Criterion),
      (∀ p ∈ pre, (∃ c, resolve_criteria conn p base = .ok c) ∨
        resolve_criteria conn p base = .error .noMatch) →
      resolve_criteria conn m base = .error .noOp →
      resolve_criteria conn (.junction .or_ (pre ++ m :: post)) base = .error .noOp) := by
  refine ⟨?_, ?_, ?_⟩
  · intro conn base A B rB hA hB
    have h1 : resolveOrMembers conn base [A, B] = .ok [rB] := by
      simp only [resolveOrMembers]
      rw [hA, hB]
    simp only [resolve_criteria]
    rw [h1]
  · intro conn base ms h
    have h1 := resolveOrMembers_all_noMatch conn base ms h
    simp only [resolve_criteria]
    rw [h1]
  · intro conn base pre m post hpre hm
    have h1 := resolveOrMembers_noOp conn base pre m post hpre hm
    simp only [resolve_criteria]
    rw [h1]

/-- C2 witness: concrete OR junctions against an empty store — a
suppressed `NoMatch` member, an all-`NoMatch` junction, and a `NoOp`
member that propagates. -/
theorem or_junction_resolution_witness :
    resolve_criteria connEmpty (.junction .or_ [hpNoMatch, leafS1]) none =
      .ok (.junction .or_ [leafS1]) ∧
    resolve_criteria connEmpty (.junction .or_ [hpNoMatch, hpNoMatch]) none = .error .noMatch ∧
    resolve_criteria connEmpty (.junction .or_ [hpNoOp, leafS1]) none = .error .noOp := by
  refine ⟨?_, ?_, ?_⟩
  · exact or_junction_resolution.1 connEmpty none hpNoMatch leafS1 leafS1 rfl rfl
  · refine or_junction_resolution.2.1 connEmpty none [hpNoMatch, hpNoMatch] ?_
    intro m hm
    have : m = hpNoMatch := by
      rcases List.mem_cons.mp hm with h1 | h1
      · exact h1
      · simpa using h1
    rw [this]
    rfl
  · exact or_junction_resolution.2.2 connEmpty none [] hpNoOp [leafS1]
      (by intro p hp; simp at hp) rfl

theorem parse_and_root : ∀ (fuel : Nat) (toks : List String) (c : Criterion),
    toks.any (· == "and") = true → parse_criteria fuel (.inr toks) = .ok c →
    ∃ a b, c = .junction .and_ [a, b] := by
  intro fuel
  induction fuel with
  | zero =>
    intro toks c _ hok
    simp [parse_criteria] at hok
  | succ n ih =>
    intro toks c hand hok
    match toks with
    | [t] =>
      have ht : t = "and" := by simpa using hand
      subst ht
      rw [show parse_criteria (n + 1) (.inr ["and"]) = parse_criteria n (.inr ["and"]) from rfl]
        at hok
      exact ih ["and"] c (by decide) hok
    | [] => simp at hand
    | t1 :: t2 :: rest =>
      simp only [parse_criteria] at hok
      rw [hand] at hok
      simp only [if_true] at hok
      rcases ha : parse_criteria n (.inr ((t1 :: t2 :: rest).take
          ((t1 :: t2 :: rest).findIdx (· == "and")))) with e | a
      · rw [ha] at hok
        simp at hok
      · rw [ha] at hok
        rcases hb : parse_criteria n (.inr ((t1 :: t2 :: rest).drop
            ((t1 :: t2 :: rest).findIdx (· == "and") + 1))) with e | b
        · rw [hb] at hok
          simp at hok
        · rw [hb] at hok
          simp only [Except.ok.injEq] at hok
          exact ⟨a, b, hok.symm⟩

/-- C8 counterexample: on tokens mixing a top-level `or` before a
top-level `and`, `parse_criteria` does not make the first operator in the
text the root: it splits at the `and`, producing an AND-rooted tree
instead of the OR-rooted tree the claim states. -/
theorem parse_criteria_and_binds_root :
    parse_criteria 32 (.inr mixedToks) =
      .ok (.junction .and_
        [.junction .or_ [equals "cntn_a" (.str "x"), equals "cntn_b" (.str "y")],
         equals "cntn_c" (.str "z")]) ∧
    (Criterion.junction .and_
        [.junction .or_ [equals "cntn_a" (.str "x"), equals "cntn_b" (.str "y")],
         equals "cntn_c" (.str "z")]) ≠
      .junction .or_
        [equals "cntn_a" (.str "x"),
         .junction .and_ [equals "cntn_b" (.str "y"), equals "cntn_c" (.str "z")]] :=
  ⟨rfl, by decide⟩

/-- C8 (amended): `parse_criteria` splits a token list at the first
occurrence of `"and"` whenever any top-level `"and"` is present (so the
root of the tree is always a two-member AND junction in that case), and
only otherwise at the first `"or"`; mixed `and`/`or` without parentheses
therefore parses `or` before `and` as `And(Or(a, b), c)`, the textually
first operator not becoming the root. -/
theorem parse_criteria_first_and_splits :
    parse_criteria 32 (.inr mixedToks) =
      .ok (.junction .and_
        [.junction .or_ [equals "cntn_a" (.str "x"), equals "cntn_b" (.str "y")],
         equals "cntn_c" (.str "z")]) ∧
    (∀ (fuel : Nat) (toks : List String) (c : Criterion),
      toks.any (· == "and") = true → parse_criteria fuel (.inr toks) = .ok c →
      ∃ a b, c = .junction .and_ [a, b]) :=
  ⟨rfl, parse_and_root⟩

/-- C8 witness: the amended split rule applied to the concrete mixed
token list. -/
theorem parse_criteria_first_and_splits_witness :
    ∃ a b, (Criterion.junction .and_
        [.junction .or_ [equals "cntn_a" (.str "x"), equals "cntn_b" (.str "y")],
         equals "cntn_c" (.str "z")]) = .junction .and_ [a, b] :=
  parse_criteria_first_and_splits.2 32 mixedToks _ (by decide) rfl

theorem unnestMembers_cons_junction (op op2 : JuncOp) (ms2 rest : List Criterion) :
    unnestMembers op (.junction op2 ms2 :: rest) =
      if op2 = op then unnestMembers op2 ms2 ++ unnestMembers op rest
      else .junction op2 (unnestMembers op2 ms2) :: unnestMembers op rest := rfl

theorem unnestMembers_cons_leaf (op : JuncOp) (o f : String) (v : List SlimsValue)
    (rest : List Criterion) :
    unnestMembers op (.leaf o f v :: rest) = .leaf o f v :: unnestMembers op rest := rfl

theorem unnestMembers_cons_hasParent (op : JuncOp) (c : Criterion) (n : Bool)
    (rest : List Criterion) :
    unnestMembers op (.hasParent c n :: rest) = .hasParent c n :: unnestMembers op rest := rfl

theorem unnestMembers_cons_hasDerived (op : JuncOp) (c : Criterion) (n : Bool)
    (rest : List Criterion) :
    unnestMembers op (.hasDerived c n :: rest) = .hasDerived c n :: unnestMembers op rest := rfl

theorem unnestMembers_append (op : JuncOp) :
    ∀ xs ys : List Criterion,
      unnestMembers op (xs ++ ys) = unnestMembers op xs ++ unnestMembers op ys := by
  intro xs
  induction xs with
  | nil => intro ys; simp [unnestMembers]
  | cons m rest ih =>
    intro ys
    cases m with
    | junction op2 ms2 =>
      rw [List.cons_append, unnestMembers_cons_junction, unnestMembers_cons_junction]
      by_cases h : op2 = op
      · simp [h, ih, List.append_assoc]
      · simp [h, ih]
    | leaf o f v =>
      rw [List.cons_append, unnestMembers_cons_leaf, unnestMembers_cons_leaf, ih,
        List.cons_append]
    | hasParent c n =>
      rw [List.cons_append, unnestMembers_cons_hasParent, unnestMembers_cons_hasParent, ih,
        List.cons_append]
    | hasDerived c n =>
      rw [List.cons_append, unnestMembers_cons_hasDerived, unnestMembers_cons_hasDerived, ih,
        List.cons_append]

theorem unnestMembers_idem : ∀ (op : JuncOp) (ms : List Criterion),
    unnestMembers op (unnestMembers op ms) = unnestMembers op ms
  | _, [] => rfl
  | op, .leaf o f v :: rest => by
    rw [unnestMembers_cons_leaf, unnestMembers_cons_leaf, unnestMembers_idem op rest]
  | op, .hasParent c n :: rest => by
    rw [unnestMembers_cons_hasParent, unnestMembers_cons_hasParent, unnestMembers_idem op rest]
  | op, .hasDerived c n :: rest => by
    rw [unnestMembers_cons_hasDerived, unnestMembers_cons_hasDerived, unnestMembers_idem op rest]
  | op, .junction op2 ms2 :: rest => by
    rw [unnestMembers_cons_junction]
    by_cases h : op2 = op
    · subst h
      rw [if_pos rfl, unnestMembers_append, unnestMembers_idem op2 ms2,
        unnestMembers_idem op2 rest]
    · rw [if_neg h, unnestMembers_cons_junction, if_neg h, unnestMembers_idem op2 ms2,
        unnestMembers_idem op rest]

theorem unnest_criteria_idem (c : Criterion) :
    unnest_criteria (unnest_criteria c) = unnest_criteria c := by
  cases c with
  | junction op ms =>
    show unnest_criteria (.junction op (unnestMembers op ms)) = .junction op (unnestMembers op ms)
    show Criterion.junction op (unnestMembers op (unnestMembers op ms)) =
      .junction op (unnestMembers op ms)
    rw [unnestMembers_idem]
  | leaf o f v => rfl
  | hasParent v n => rfl
  | hasDerived v n => rfl

/-- C9: `unnest_criteria` splices a direct child junction with the same
operator in place of the child, keeps a child junction with a different
operator nested (recursively flattened), passes non-junction nodes
through unchanged, and is idempotent — on every criterion tree and in
particular on every parser output. -/
theorem unnest_criteria_flatten_idempotent :
    (∀ (o f : String) (v : List SlimsValue), unnest_criteria (.leaf o f v) = .leaf o f v) ∧
    (∀ (c : Criterion) (n : Bool), unnest_criteria (.hasParent c n) = .hasParent c n) ∧
    (∀ (c : Criterion) (n : Bool), unnest_criteria (.hasDerived c n) = .hasDerived c n) ∧
    (∀ (op : JuncOp) (ms2 rest : List Criterion),
      unnest_criteria (.junction op (.junction op ms2 :: rest)) =
        .junction op (unnestMembers op ms2 ++ unnestMembers op rest)) ∧
    (∀ (op op2 : JuncOp) (ms2 rest : List Criterion), op2 ≠ op →
      unnest_criteria (.junction op (.junction op2 ms2 :: rest)) =
        .junction op (.junction op2 (unnestMembers op2 ms2) :: unnestMembers op rest)) ∧
    (∀ c : Criterion, unnest_criteria (unnest_criteria c) = unnest_criteria c) ∧
    (∀ (fuel : Nat) (s : String) (c : Criterion), parse_criteria fuel (.inl s) = .ok c →
      unnest_criteria (unnest_criteria c) = unnest_criteria c) := by
  refine ⟨fun _ _ _ => rfl, fun _ _ => rfl, fun _ _ => rfl, ?_, ?_, unnest_criteria_idem,
    fun _ _ c _ => unnest_criteria_idem c⟩
  · intro op ms2 rest
    show Criterion.junction op (unnestMembers op (.junction op ms2 :: rest)) = _
    rw [unnestMembers_cons_junction, if_pos rfl]
  · intro op op2 ms2 rest h
    show Criterion.junction op (unnestMembers op (.junction op2 ms2 :: rest)) = _
    rw [unnestMembers_cons_junction, if_neg h]

/-- C9 witness: a differing-operator child kept nested, and idempotence on
a concrete parsed criterion. -/
theorem unnest_criteria_flatten_idempotent_witness :
    unnest_criteria (.junction .and_ [.junction .or_ [leafS1]]) =
      .junction .and_ [.junction .or_ [leafS1]] ∧
    unnest_criteria (unnest_criteria leafS1) = unnest_criteria leafS1 := by
  constructor
  · exact unnest_criteria_flatten_idempotent.2.2.2.2.1 .and_ .or_ [leafS1] [] (by decide)
  · exact unnest_criteria_flatten_idempotent.2.2.2.2.2.2 32 "cntn_id equals S1" leafS1 rfl

/-- C5 counterexample: a query whose top-level resolution raises `NoOp`
returns zero records even though the store's content table is non-empty —
`get_records` does not drop the filter and issue an unconstrained fetch. -/
theorem get_records_noop_returns_empty_not_full_scan :
    get_records 32 connNoParent "not_has_parent cntn_x equals 1" = .ok [] ∧
    connNoParent "Content" conjunction = [⟨1, 1⟩] ∧
    ([] : List Record) ≠ [⟨1, 1⟩] :=
  ⟨rfl, rfl, by decide⟩

/-- C5 (amended): a top-level resolution raising `NoMatch` returns zero
records without contacting the final fetch stage; one raising `NoOp`
also returns zero records without contacting the final fetch stage (the
source warns and skips the fetch, it does not degenerate to an
unconstrained full scan); neither signal leaks to the caller as an
error. -/
theorem get_records_signal_handling :
    (∀ (fuel : Nat) (conn : String → Criterion → List Record) (s : String) (p : Criterion),
      parse_criteria fuel (.inl s) = .ok p →
      validate_criteria conn (unnest_criteria p) = .ok () →
      resolve_criteria conn (unnest_criteria p) none = .error .noMatch →
      get_records fuel conn s = .ok []) ∧
    (∀ (fuel : Nat) (conn : String → Criterion → List Record) (s : String) (p : Criterion),
      parse_criteria fuel (.inl s) = .ok p →
      validate_criteria conn (unnest_criteria p) = .ok () →
      resolve_criteria conn (unnest_criteria p) none = .error .noOp →
      get_records fuel conn s = .ok []) ∧
    (∀ (fuel : Nat) (conn : String → Criterion → List Record) (s : String),
      get_records fuel conn s ≠ .error (.resolveErr .noMatch) ∧
      get_records fuel conn s ≠ .error (.resolveErr .noOp)) := by
  refine ⟨?_, ?_, ?_⟩
  · intro fuel conn s p hp hv hr
    simp only [get_records, hp, hv, hr]
  · intro fuel conn s p hp hv hr
    simp only [get_records, hp, hv, hr]
  · intro fuel conn s
    simp only [get_records]
    rcases hp : parse_criteria fuel (.inl s) with e | p
    · simp
    · rcases hv : validate_criteria conn (unnest_criteria p) with e | u
      · simp [hv]
      · rcases hr : resolve_criteria conn (unnest_criteria p) none with e | r
        · cases e <;> simp [hv, hr]
        · simp [hv, hr]

/-- C5 witness: against `connNoParent`, an unnegated `has_parent` query
resolves to `NoMatch` and a negated one to `NoOp`; both return zero
records and neither surfaces a signal error. -/
theorem get_records_signal_handling_witness :
    get_records 32 connNoParent "has_parent cntn_x equals 1" = .ok [] ∧
    get_records 32 connNoParent "not_has_parent cntn_x equals 1" = .ok [] ∧
    get_records 32 connNoParent "not_has_parent cntn_x equals 1" ≠
      .error (.resolveErr .noOp) := by
  refine ⟨?_, ?_, ?_⟩
  · exact get_records_signal_handling.1 32 connNoParent _
      (.hasParent (equals "cntn_x" (.str "1")) false) rfl rfl rfl
  · exact get_records_signal_handling.2.1 32 connNoParent _
      (.hasParent (equals "cntn_x" (.str "1")) true) rfl rfl rfl
  · exact (get_records_signal_handling.2.2 32 connNoParent "not_has_parent cntn_x equals 1").2

theorem iterLoop_mem_ne_nil (records : List Record) (ps : Nat) (e : Option Nat) :
    ∀ (st : Nat) (p : List Record), p ∈ iterLoop records ps e st → p ≠ [] := by
  have key : ∀ (n st : Nat) (p : List Record), records.length - st ≤ n →
      p ∈ iterLoop records ps e st → p ≠ [] := by
    intro n
    induction n with
    | zero =>
      intro st p hle hmem
      have hpage : pageAt records ps e st = [] := by
        by_contra hne
        have := (pageAt_facts records ps e st hne).1
        omega
      rw [iterLoop, dif_pos hpage] at hmem
      simp at hmem
    | succ n ih =>
      intro st p hle hmem
      by_cases hpage : pageAt records ps e st = []
      · rw [iterLoop, dif_pos hpage] at hmem
        simp at hmem
      · rw [iterLoop, dif_neg hpage] at hmem
        rcases List.mem_cons.mp hmem with h1 | h1
        · rw [h1]
          exact hpage
        · have hf := pageAt_facts records ps e st hpage
          exact ih (st + ps) p (by omega) h1
  intro st p hmem
  exact key (records.length - st) st p le_rfl hmem

theorem iterLoop_full_pages (records : List Record) (ps : Nat) (hps : 0 < ps) :
    ∀ (st i : Nat), i + 1 < (iterLoop records ps none st).length →
      ((iterLoop records ps none st).getD i []).length = ps := by
  have key : ∀ (n st i : Nat), records.length - st ≤ n →
      i + 1 < (iterLoop records ps none st).length →
      ((iterLoop records ps none st).getD i []).length = ps := by
    intro n
    induction n with
    | zero =>
      intro st i hle hlen
      have hpage : pageAt records ps none st = [] := by
        by_contra hne
        have := (pageAt_facts records ps none st hne).1
        omega
      rw [iterLoop, dif_pos hpage] at hlen
      simp at hlen
    | succ n ih =>
      intro st i hle hlen
      by_cases hpage : pageAt records ps none st = []
      · rw [iterLoop, dif_pos hpage] at hlen
        simp at hlen
      · rw [iterLoop, dif_neg hpage] at hlen ⊢
        cases i with
        | zero =>
          have htail : iterLoop records ps none (st + ps) ≠ [] := by
            intro h0
            rw [h0] at hlen
            simp at hlen
          have hpage2 : pageAt records ps none (st + ps) ≠ [] := by
            intro h0
            apply htail
            rw [iterLoop, dif_pos h0]
          have hlt : st + ps < records.length :=
            (pageAt_facts records ps none (st + ps) hpage2).1
          rw [List.getD_cons_zero]
          have harith : st + ps - st = ps := by omega
          simp only [pageAt, harith]
          rw [List.length_take, List.length_drop]
          omega
        | succ j =>
          rw [List.getD_cons_succ]
          have hf := pageAt_facts records ps none st hpage
          have hlen2 : j + 1 < (iterLoop records ps none (st + ps)).length := by
            simpa using hlen
          exact ih (st + ps) j (by omega) hlen2
  intro st i hlen
  exact key (records.length - st) st i le_rfl hlen

theorem pageAt_none_nil_drop (records : List Record) (ps st : Nat) (hps : 0 < ps)
    (h : pageAt records ps none st = []) : records.drop st = [] := by
  rcases hd : records.drop st with _ | ⟨x, xs⟩
  · rfl
  · exfalso
    obtain ⟨k, rfl⟩ : ∃ k, ps = k + 1 := ⟨ps - 1, by omega⟩
    have h1 : st + (k + 1) - st = k + 1 := by omega
    simp only [pageAt, h1, hd] at h
    simp at h

theorem iterLoop_join (records : List Record) (ps : Nat) (hps : 0 < ps) :
    ∀ st : Nat, (iterLoop records ps none st).flatten = records.drop st := by
  have key : ∀ (n st : Nat), records.length - st ≤ n →
      (iterLoop records ps none st).flatten = records.drop st := by
    intro n
    induction n with
    | zero =>
      intro st hle
      have hpage : pageAt records ps none st = [] := by
        by_contra hne
        have := (pageAt_facts records ps none st hne).1
        omega
      rw [iterLoop, dif_pos hpage, pageAt_none_nil_drop records ps st hps hpage]
      rfl
    | succ n ih =>
      intro st hle
      by_cases hpage : pageAt records ps none st = []
      · rw [iterLoop, dif_pos hpage, pageAt_none_nil_drop records ps st hps hpage]
        rfl
      · rw [iterLoop, dif_neg hpage]
        have hf := pageAt_facts records ps none st hpage
        simp only [List.flatten_cons]
        rw [ih (st + ps) (by omega)]
        have h1 : st + ps - st = ps := by omega
        simp only [pageAt, h1]
        rw [show records.drop (st + ps) = (records.drop st).drop ps from by
          rw [List.drop_drop, Nat.add_comm]]
        exact List.take_append_drop ps (records.drop st)
  intro st
  exact key (records.length - st) st le_rfl

/-- C10: the paginated fetch starts at offset 0 when no start is given,
uses a configurable page size defaulting to 100, yields only non-empty
pages, advances by the page size (so the yielded pages concatenate to
exactly the matching records), every yielded page except the last is full,
and with page size 2 over 5 matching records it yields pages of sizes
`[2, 2, 1]` and then stops. -/
theorem iter_fetch_pagination :
    default_page_size = 100 ∧
    (∀ (records : List Record) (ps : Nat) (e : Option Nat),
      iter_fetch records ps none e = iter_fetch records ps (some 0) e) ∧
    (iter_fetch r5 2 none none).map List.length = [2, 2, 1] ∧
    (∀ (records : List Record) (ps st : Nat) (p : List Record),
      p ∈ iter_fetch records ps (some st) none → p ≠ []) ∧
    (∀ (records : List Record) (ps st : Nat), 0 < ps →
      ∀ i, i + 1 < (iter_fetch records ps (some st) none).length →
        ((iter_fetch records ps (some st) none).getD i []).length = ps) ∧
    (∀ (records : List Record) (ps : Nat), 0 < ps →
      (iter_fetch records ps none none).flatten = records) := by
  refine ⟨rfl, fun _ _ _ => rfl, ?_, ?_, ?_, ?_⟩
  · simp only [iter_fetch]
    rw [iterLoop, iterLoop, iterLoop, iterLoop]
    simp [pageAt, r5]
  · intro records ps st p hmem
    exact iterLoop_mem_ne_nil records ps none st p hmem
  · intro records ps st hps i hlen
    exact iterLoop_full_pages records ps hps st i hlen
  · intro records ps hps
    have h := iterLoop_join records ps hps 0
    simpa using h

/-- C10 witness: for page size 2 over the 5 fixture records, the first
page is full and the pages concatenate back to the records. -/
theorem iter_fetch_pagination_witness :
    ((iter_fetch r5 2 (some 0) none).getD 0 []).length = 2 ∧
    (iter_fetch r5 2 none none).flatten = r5 := by
  constructor
  · apply iter_fetch_pagination.2.2.2.2.1 r5 2 0 (by decide) 0
    rw [← iter_fetch_pagination.2.1 r5 2 none]
    have h3 : (iter_fetch r5 2 none none).length = 3 := by
      have h := congrArg List.length iter_fetch_pagination.2.2.1
      simpa using h
    omega
  · exact iter_fetch_pagination.2.2.2.2.2 r5 2 (by decide)
